import Mathlib

/-
Shallow embedding of the logic of src/app.py (Book QR Generator).

Modelling conventions:
* Python strings are modelled as List Char, read over ASCII: the digit
  class of the regular expressions is the ASCII digits, the whitespace
  class is the six ASCII whitespace characters.
* Yes/no dialog answers are Boolean oracle arguments.
* The ValueError messages of parse_page_input are modelled by the
  constructors of PageParseError, one per raise site of the source, and
  the messages of validate_google_drive_link by the constructors of
  LinkMsg, one per message of the source.
* The QR artifact is modelled by the payload text it encodes; images,
  widgets and dialogs are out of scope, as in the specification.
-/

/-- The six ASCII whitespace characters: these are the characters of the
whitespace class of the Python re module and of the strip method, read
over ASCII. -/
def isPySpace (c : Char) : Bool :=
  c = ' ' || c = '\t' || c = '\n' || c = '\r' || c = '\x0b' || c = '\x0c'

/-- Left part of Python strip: drop leading whitespace. -/
def lstripWs (s : List Char) : List Char := s.dropWhile isPySpace

/-- Right part of Python strip: drop trailing whitespace. -/
def rstripWs (s : List Char) : List Char := (s.reverse.dropWhile isPySpace).reverse

/-- Python strip: remove whitespace at both ends. -/
def pyStrip (s : List Char) : List Char := rstripWs (lstripWs s)

/-- ASCII decimal digit test: the digit class of the source regular
expressions and the isdigit test, read over ASCII. -/
def isAsciiDigit (c : Char) : Bool := '0' ≤ c && c ≤ '9'

/-- Numeric value of a decimal digit string, as the Python int
constructor computes it on an all digit string. -/
def digitsVal (s : List Char) : Nat :=
  s.foldl (fun a c => 10 * a + (c.toNat - '0'.toNat)) 0

/-- Deterministic reading of the anchored range expression of
parse_page_input: one or more digits, optional whitespace, a dash,
optional whitespace, one or more digits, end of string.  Returns the
numeric values of the two digit groups. -/
def matchRange (s : List Char) : Option (Nat × Nat) :=
  let d1 := s.takeWhile isAsciiDigit
  let r1 := s.dropWhile isAsciiDigit
  if d1 = [] then none
  else
    match r1.dropWhile isPySpace with
    | '-' :: r2 =>
      let r3 := r2.dropWhile isPySpace
      let d2 := r3.takeWhile isAsciiDigit
      let r4 := r3.dropWhile isAsciiDigit
      if d2 = [] then none
      else if r4 = [] then some (digitsVal d1, digitsVal d2) else none
    | _ => none

/-- The ValueError messages raised by parse_page_input, one constructor
per raise site of the source. -/
inductive PageParseError
  /-- Message: Invalid page range format. -/
  | rangeFormat
  /-- Message: Page numbers must be greater than 0. -/
  | rangeStartLow
  /-- Message: Start page must be less than or equal to end page. -/
  | rangeOrder
  /-- Message: End page N exceeds total pages T. -/
  | rangeExceeds (endPage total : Nat)
  /-- Message: Invalid page number. -/
  | singleFormat
  /-- Message: Page number must be greater than 0. -/
  | singleLow
  /-- Message: Page N exceeds total pages T. -/
  | singleExceeds (page total : Nat)
deriving DecidableEq

/-- Embedding of parse_page_input (src/app.py lines 548 to 591): strip
the input, branch on whether it contains a dash, match the matching
grammar, then run the bound checks in source order. -/
def parse_page_input (input : List Char) (total_pages : Nat) :
    Except PageParseError (List Nat) :=
  let s := pyStrip input
  if s.any (fun c => c = '-') then
    match matchRange s with
    | none => .error .rangeFormat
    | some (startPage, endPage) =>
      if startPage < 1 then .error .rangeStartLow
      else if endPage < startPage then .error .rangeOrder
      else if total_pages < endPage then .error (.rangeExceeds endPage total_pages)
      else .ok (List.range' startPage (endPage + 1 - startPage))
  else
    if s ≠ [] && s.all isAsciiDigit then
      let pageNum := digitsVal s
      if pageNum < 1 then .error .singleLow
      else if total_pages < pageNum then .error (.singleExceeds pageNum total_pages)
      else .ok [pageNum]
    else .error .singleFormat

/-- Embedding of the substitution step of extract_text: every maximal
whitespace run becomes one single space character. -/
def collapseRuns : List Char → List Char
  | [] => []
  | [c] => if isPySpace c then [' '] else [c]
  | c :: c2 :: cs =>
    if isPySpace c then
      if isPySpace c2 then collapseRuns (c2 :: cs)
      else ' ' :: c2 :: collapseRuns cs
    else c :: collapseRuns (c2 :: cs)

/-- Python join with a double newline separator, as in extract_text. -/
def joinDoubleNewline : List (List Char) → List Char
  | [] => []
  | [t] => t
  | t :: ts => t ++ '\n' :: '\n' :: joinDoubleNewline ts

/-- Embedding of the body of extract_text (src/app.py lines 593 to 620)
on the list of per page texts: keep the non empty page texts, join them
with a double newline, collapse every whitespace run to a single space,
and strip both ends. -/
def cleanJoin (texts : List (List Char)) : List Char :=
  pyStrip (collapseRuns (joinDoubleNewline (texts.filter (fun t => t ≠ []))))

/-- Embedding of extract_text: fetch each selected page text by index
(1-indexed externally, 0-indexed in the document) and clean the
concatenation. -/
def extract_text (pdfPages : List (List Char)) (pageNumbers : List Nat) : List Char :=
  cleanJoin (pageNumbers.map (fun n => pdfPages.getD (n - 1) []))

/-- Messages produced by validate_google_drive_link, one constructor per
message of the source. -/
inductive LinkMsg
  /-- Message: URL should start with the http or https scheme. -/
  | schemeError
  /-- Message: advisory warning, the URL does not appear to be a Google
  Drive or Google Docs link, asking the user to confirm. -/
  | notGoogleWarning
deriving DecidableEq

/-- Boolean test that pat occurs at the start of s. -/
def startsWithSeq : List Char → List Char → Bool
  | [], _ => true
  | _ :: _, [] => false
  | p :: ps, c :: cs => p = c && startsWithSeq ps cs

/-- Boolean test that pat occurs contiguously somewhere inside the second
argument: the Python substring containment test. -/
def containsSeq (pat : List Char) : List Char → Bool
  | [] => startsWithSeq pat []
  | c :: cs => startsWithSeq pat (c :: cs) || containsSeq pat cs

/-- The recognised Google domain strings of validate_google_drive_link. -/
def googleDomains : List (List Char) :=
  ["drive.google.com".toList, "docs.google.com".toList,
   "sheets.google.com".toList, "slides.google.com".toList]

/-- Embedding of validate_google_drive_link (src/app.py lines 508 to
542): the pair of the validity flag and the optional message. -/
def validate_google_drive_link (url : List Char) : Bool × Option LinkMsg :=
  if url = [] || pyStrip url = [] then (true, none)
  else
    let u := pyStrip url
    if !(startsWithSeq "http://".toList u || startsWithSeq "https://".toList u) then
      (false, some .schemeError)
    else
      if googleDomains.any (fun d => containsSeq d (u.map Char.toLower)) then (true, none)
      else (true, some .notGoogleWarning)

/-- Embedding of validate_url (src/app.py lines 331 to 349): strip, and
when the result is non empty, lacks the three known schemes at the
start, contains a dot and contains no space, put the https scheme in
front. -/
def validate_url (url : List Char) : List Char :=
  let u := pyStrip url
  if u ≠ [] &&
      !(startsWithSeq "http://".toList u || startsWithSeq "https://".toList u ||
        startsWithSeq "ftp://".toList u) then
    if u.any (fun c => c = '.') && !(u.any (fun c => c = ' ')) then
      "https://".toList ++ u
    else u
  else u

/-- The literal separator and label put in front of the drive link by
generate_qr. -/
def googleLinkSep : List Char := "\n\n---\nGoogle Drive Link: ".toList

/-- Embedding of the qr_content assembly of generate_qr (src/app.py
lines 664 to 673): the extracted text alone, or the extracted text
followed by the literal separator and the link. -/
def composeContent (text link : List Char) : List Char :=
  if link = [] then text else text ++ googleLinkSep ++ link

/-- Session state: document fields, PDF workflow fields and the URL
workflow artifact.  Artifacts are modelled by their payload text. -/
structure AppState where
  pdf_path : Option (List Char)
  pdf_pages : Option (List (List Char))
  total_pages : Nat
  qr_image : Option (List Char)
  extracted_text : List Char
  google_drive_link : List Char
  url_qr_image : Option (List Char)
deriving DecidableEq

/-- Outcome report of one run of generate_qr: the abort constructors
record which message box ended the run, success records the encoded
payload. -/
inductive GenResult
  | noPdf
  | emptyPageInput
  | parseError (e : PageParseError)
  | invalidLink (m : Option LinkMsg)
  | linkWarningDeclined
  | emptyExtraction
  | sizeDeclined (payload : List Char)
  | success (payload : List Char)
deriving DecidableEq

/-- One run of generate_qr: final state, result, and whether the large
text confirmation box was shown. -/
structure GenOutcome where
  state : AppState
  result : GenResult
  sizePromptShown : Bool
deriving DecidableEq

/-- Embedding of the extraction and encoding block of generate_qr
(src/app.py lines 653 to 731), entered after the page specifier and the
optional link have been validated: extract and store the text, abort on
an empty result, assemble the content and store the link, run the soft
size check, then encode and store the artifact. -/
def generate_qr_extract_encode (st : AppState) (pages : List (List Char))
    (pageNumbers : List Nat) (driveLink : List Char) (sizeConfirm : Bool) : GenOutcome :=
  let newText := extract_text pages pageNumbers
  let st1 := { st with extracted_text := newText }
  if newText = [] then ⟨st1, .emptyExtraction, false⟩
  else
    let qrContent := composeContent newText driveLink
    let st2 := { st1 with google_drive_link := driveLink }
    if 2000 < qrContent.length then
      if sizeConfirm then
        ⟨{ st2 with qr_image := some qrContent }, .success qrContent, true⟩
      else ⟨st2, .sizeDeclined qrContent, true⟩
    else ⟨{ st2 with qr_image := some qrContent }, .success qrContent, false⟩

/-- Embedding of generate_qr (src/app.py lines 622 to 734).  The two
yes/no boxes are answered by the linkConfirm and sizeConfirm oracles.
Session fields change exactly where the source assigns them:
extracted_text right after extraction and before the empty check,
google_drive_link at content assembly and before the size check,
qr_image only at success. -/
def generate_qr (st : AppState) (pageEntry driveEntry : List Char)
    (linkConfirm sizeConfirm : Bool) : GenOutcome :=
  match st.pdf_pages with
  | none => ⟨st, .noPdf, false⟩
  | some pages =>
    let pageInput := pyStrip pageEntry
    if pageInput = [] then ⟨st, .emptyPageInput, false⟩
    else
      match parse_page_input pageInput st.total_pages with
      | .error e => ⟨st, .parseError e, false⟩
      | .ok pageNumbers =>
        let driveLink := pyStrip driveEntry
        if driveLink = [] then
          generate_qr_extract_encode st pages pageNumbers driveLink sizeConfirm
        else
          match validate_google_drive_link driveLink with
          | (false, m) => ⟨st, .invalidLink m, false⟩
          | (true, some _) =>
            if linkConfirm then
              generate_qr_extract_encode st pages pageNumbers driveLink sizeConfirm
            else ⟨st, .linkWarningDeclined, false⟩
          | (true, none) =>
            generate_qr_extract_encode st pages pageNumbers driveLink sizeConfirm

/-- Outcome report of one run of generate_qr_from_url. -/
inductive UrlResult
  | emptyInput
  | sizeDeclined (payload : List Char)
  | success (payload : List Char)
deriving DecidableEq

/-- One run of generate_qr_from_url. -/
structure UrlOutcome where
  state : AppState
  result : UrlResult
  sizePromptShown : Bool
deriving DecidableEq

/-- The placeholder text of the URL input widget. -/
def urlPlaceholder : List Char := "https://example.com or any text".toList

/-- Embedding of generate_qr_from_url (src/app.py lines 351 to 397). -/
def generate_qr_from_url (st : AppState) (input : List Char)
    (sizeConfirm : Bool) : UrlOutcome :=
  if input = urlPlaceholder || pyStrip input = [] then ⟨st, .emptyInput, false⟩
  else
    let content := validate_url input
    if 2000 < content.length then
      if sizeConfirm then ⟨{ st with url_qr_image := some content }, .success content, true⟩
      else ⟨st, .sizeDeclined content, true⟩
    else ⟨{ st with url_qr_image := some content }, .success content, false⟩

/-- Outcome report of browse_pdf. -/
inductive BrowseResult
  | cancelled
  | opened
  | openFailed
deriving DecidableEq

/-- Embedding of browse_pdf (src/app.py lines 482 to 506).  The file
dialog answer is the picked argument; the document open attempt is the
openResult argument, giving the page texts on success and none on
failure.  On failure the source clears pdf_path, pdf_reader and
total_pages. -/
def browse_pdf (st : AppState) (picked : Option (List Char))
    (openResult : Option (List (List Char))) : AppState × BrowseResult :=
  match picked with
  | none => (st, .cancelled)
  | some path =>
    match openResult with
    | some pages =>
      ({ st with pdf_pages := some pages, total_pages := pages.length,
                 pdf_path := some path }, .opened)
    | none =>
      ({ st with pdf_path := none, pdf_pages := none, total_pages := 0 }, .openFailed)

/-- Grammar shapes of the page specifier. -/
inductive PageSpec
  | single (n : Nat)
  | rangeSpec (a b : Nat)
deriving DecidableEq

/-- Format step of the specification: the stripped specifier matches the
single page grammar or the range grammar. -/
def pageSpecFormat (s : List Char) : Option PageSpec :=
  if s.any (fun c => c = '-') then
    (matchRange s).map (fun ab => .rangeSpec ab.1 ab.2)
  else if s ≠ [] && s.all isAsciiDigit then some (.single (digitsVal s))
  else none

/-- Amended reading of the parser contract: format first, then for
ranges start at least 1, start at most end, end at most total; for
single pages the page at least 1 and then at most total.  A check that
the end of a range is at least 1 is absent, matching the source. -/
def parsePageAmended (input : List Char) (total : Nat) :
    Except PageParseError (List Nat) :=
  let s := pyStrip input
  match pageSpecFormat s with
  | none => .error (if s.any (fun c => c = '-') then .rangeFormat else .singleFormat)
  | some (.single n) =>
    if n < 1 then .error .singleLow
    else if total < n then .error (.singleExceeds n total)
    else .ok [n]
  | some (.rangeSpec a b) =>
    if a < 1 then .error .rangeStartLow
    else if b < a then .error .rangeOrder
    else if total < b then .error (.rangeExceeds b total)
    else .ok (List.range' a (b + 1 - a))

/-- Validation failure categories named by the claimed validation
order. -/
inductive ClaimErrCat
  | formatCat
  | endpointLowCat
  | startAfterEndCat
  | exceedsTotalCat
deriving DecidableEq

/-- Category of each source error message. -/
def errCat : PageParseError → ClaimErrCat
  | .rangeFormat => .formatCat
  | .singleFormat => .formatCat
  | .rangeStartLow => .endpointLowCat
  | .singleLow => .endpointLowCat
  | .rangeOrder => .startAfterEndCat
  | .rangeExceeds _ _ => .exceedsTotalCat
  | .singleExceeds _ _ => .exceedsTotalCat

/-- Modelled from the spec: the first failing check in the claimed
order, format first, then each endpoint at least 1, then start at most
end for ranges, then the end or the single page at most the total. -/
def claimFirstFailure (input : List Char) (total : Nat) : Option ClaimErrCat :=
  let s := pyStrip input
  match pageSpecFormat s with
  | none => some .formatCat
  | some (.single n) =>
    if n < 1 then some .endpointLowCat
    else if total < n then some .exceedsTotalCat
    else none
  | some (.rangeSpec a b) =>
    if a < 1 || b < 1 then some .endpointLowCat
    else if b < a then some .startAfterEndCat
    else if total < b then some .exceedsTotalCat
    else none

/-- Modelled from the spec: the host part of a URL, the text after the
scheme separator up to the first slash.  Used to state the claim that
the recognised domains are compared against the host. -/
def hostOf (url : List Char) : List Char :=
  let afterScheme :=
    if startsWithSeq "https://".toList url then url.drop 8
    else if startsWithSeq "http://".toList url then url.drop 7
    else url
  afterScheme.takeWhile (fun c => c ≠ '/')

/-- Amended reading of the link validator contract: empty or whitespace
only is valid with no warning; a non empty input without the http or
https scheme at the start is invalid; otherwise valid, with a warning
exactly when the lowercased URL does not contain any recognised domain
string as a contiguous substring. -/
def linkValidatorAmended (url : List Char) : Bool × Option LinkMsg :=
  if pyStrip url = [] then (true, none)
  else if startsWithSeq "http://".toList (pyStrip url) ||
      startsWithSeq "https://".toList (pyStrip url) then
    (true,
      if googleDomains.any (fun d => containsSeq d ((pyStrip url).map Char.toLower)) then none
      else some .notGoogleWarning)
  else (false, some .schemeError)

/-- Reading of the URL normaliser claim: trim; when the result is non
empty, has none of the three known schemes at the start, contains a dot
and contains no space, put https in front; otherwise give back the
trimmed input unchanged. -/
def urlNormalizerSpec (url : List Char) : List Char :=
  if pyStrip url ≠ [] ∧
      ¬(startsWithSeq "http://".toList (pyStrip url) = true ∨
        startsWithSeq "https://".toList (pyStrip url) = true ∨
        startsWithSeq "ftp://".toList (pyStrip url) = true) ∧
      (pyStrip url).any (fun c => c = '.') = true ∧
      ¬((pyStrip url).any (fun c => c = ' ') = true) then
    "https://".toList ++ pyStrip url
  else pyStrip url

/-- Maximal whitespace free tokens of a string, in order. -/
def wsTokens : List Char → List (List Char)
  | [] => []
  | c :: cs =>
    if isPySpace c then wsTokens cs
    else (c :: cs.takeWhile (fun x => !isPySpace x)) ::
      wsTokens (cs.dropWhile (fun x => !isPySpace x))
termination_by s => s.length
decreasing_by
  · simp
  · have h : (cs.dropWhile (fun x => !isPySpace x)).length ≤ cs.length :=
      (List.dropWhile_sublist _).length_le
    simp
    omega

/-- Join a token list with single spaces. -/
def joinSp : List (List Char) → List Char
  | [] => []
  | [t] => t
  | t :: ts => t ++ ' ' :: joinSp ts

/-- Boolean test: no two adjacent characters are both whitespace. -/
def noAdjWs : List Char → Bool
  | c1 :: c2 :: cs => (!(isPySpace c1 && isPySpace c2)) && noAdjWs (c2 :: cs)
  | _ => true

/-- Boolean test: the first and the last character, when present, are
not whitespace. -/
def noEdgeWs (s : List Char) : Bool :=
  s.head?.all (fun c => !isPySpace c) && s.reverse.head?.all (fun c => !isPySpace c)

/-- Example page text of 2001 identical letters, above the soft limit. -/
def bigPage : List Char := List.replicate 2001 'a'

/-- Example prior session state: a one page document is loaded and both
workflows hold a previous artifact; a previous extraction and an empty
previous link are present. -/
def exPriorState : AppState :=
  { pdf_path := some "book.pdf".toList
  , pdf_pages := some [bigPage]
  , total_pages := 1
  , qr_image := some "prior".toList
  , extracted_text := "old".toList
  , google_drive_link := []
  , url_qr_image := some "priorUrl".toList }

/-- Example prior session state whose single loaded page has no
extractable text. -/
def exEmptyState : AppState := { exPriorState with pdf_pages := some [[]] }

/-- A digit character is not whitespace. -/
theorem digit_not_space {c : Char} (h : isAsciiDigit c = true) : isPySpace c = false := by
  by_cases hs : isPySpace c
  · exfalso
    simp only [isAsciiDigit, Bool.and_eq_true, decide_eq_true_eq] at h
    simp only [isPySpace, Bool.or_eq_true, decide_eq_true_eq] at hs
    rcases hs with ((((hs | hs) | hs) | hs) | hs) | hs <;> subst hs <;> revert h <;> decide
  · simpa using hs

/-- A digit character is not the dash. -/
theorem digit_not_dash {c : Char} (h : isAsciiDigit c = true) : c ≠ '-' := by
  intro he
  subst he
  simp [isAsciiDigit] at h

/-- The head of a dropWhile result refutes the test. -/
theorem head?_dropWhile {p : Char → Bool} :
    ∀ (l : List Char) {c : Char}, (l.dropWhile p).head? = some c → p c = false := by
  intro l
  induction l with
  | nil => intro c h; simp [List.dropWhile] at h
  | cons a as ih =>
    intro c h
    by_cases hp : p a
    · rw [List.dropWhile_cons_of_pos hp] at h
      exact ih h
    · rw [List.dropWhile_cons_of_neg hp] at h
      simp at h
      subst h
      exact Bool.eq_false_iff.mpr hp

/-- lstripWs keeps a list whose head is not whitespace. -/
theorem lstripWs_of_head {s : List Char}
    (h : s.head?.all (fun c => !isPySpace c) = true) : lstripWs s = s := by
  cases s with
  | nil => rfl
  | cons c cs =>
    simp only [List.head?_cons, Option.all_some, Bool.not_eq_true'] at h
    simp [lstripWs, List.dropWhile_cons_of_neg, h]

/-- lstripWs keeps a list with no whitespace at all. -/
theorem lstripWs_all {s : List Char} (h : ∀ c ∈ s, isPySpace c = false) :
    lstripWs s = s := by
  cases s with
  | nil => rfl
  | cons c cs => simp [lstripWs, List.dropWhile_cons_of_neg, h c (List.mem_cons_self c cs)]

/-- rstripWs keeps a list with no whitespace at all. -/
theorem rstripWs_all {s : List Char} (h : ∀ c ∈ s, isPySpace c = false) :
    rstripWs s = s := by
  unfold rstripWs
  rw [show s.reverse.dropWhile isPySpace = s.reverse from ?_, List.reverse_reverse]
  cases hr : s.reverse with
  | nil => rfl
  | cons c cs =>
    have hc : c ∈ s := by
      have : c ∈ s.reverse := by rw [hr]; exact List.mem_cons_self c cs
      simpa using this
    rw [List.dropWhile_cons_of_neg]
    simp [h c hc]

/-- pyStrip keeps a list with no whitespace at all. -/
theorem pyStrip_all {s : List Char} (h : ∀ c ∈ s, isPySpace c = false) :
    pyStrip s = s := by
  unfold pyStrip
  rw [lstripWs_all h, rstripWs_all h]

/-- Unfolding equation of rstripWs on a cons cell. -/
theorem rstripWs_cons (c : Char) (cs : List Char) :
    rstripWs (c :: cs) =
      if rstripWs cs = [] then (if isPySpace c then [] else [c])
      else c :: rstripWs cs := by
  unfold rstripWs
  rw [List.reverse_cons, List.dropWhile_append]
  by_cases he : cs.reverse.dropWhile isPySpace = []
  · rw [he]
    simp only [List.isEmpty_nil, if_true, List.reverse_nil, if_pos rfl]
    by_cases hc : isPySpace c <;> simp [List.dropWhile, hc]
  · have h1 : (cs.reverse.dropWhile isPySpace).isEmpty = false := by
      simpa [List.isEmpty_iff] using he
    have h2 : (cs.reverse.dropWhile isPySpace).reverse ≠ [] := by
      simpa [List.reverse_eq_nil_iff] using he
    rw [h1]
    simp [h2]

/-- lstripWs distributes over an append whose left part does not strip
to nothing. -/
theorem lstripWs_append_of_ne {a : List Char} (b : List Char)
    (h : lstripWs a ≠ []) : lstripWs (a ++ b) = lstripWs a ++ b := by
  induction a with
  | nil => simp [lstripWs] at h
  | cons c cs ih =>
    by_cases hc : isPySpace c
    · have h2 : lstripWs cs ≠ [] := by
        simpa [lstripWs, List.dropWhile_cons_of_pos hc] using h
      simp only [lstripWs, List.cons_append, List.dropWhile_cons_of_pos hc]
      simpa [lstripWs] using ih h2
    · simp [lstripWs, List.dropWhile_cons_of_neg hc]

/-- rstripWs distributes over an append whose right part does not strip
to nothing. -/
theorem rstripWs_append_of_ne (a : List Char) {b : List Char}
    (h : rstripWs b ≠ []) : rstripWs (a ++ b) = a ++ rstripWs b := by
  unfold rstripWs at *
  rw [List.reverse_append, List.dropWhile_append]
  have hne : (b.reverse.dropWhile isPySpace).isEmpty = false := by
    rcases hq : b.reverse.dropWhile isPySpace with _ | ⟨x, xs⟩
    · exact absurd (by simp [hq]) h
    · simp
  simp [hne]

/-- Appending one trailing whitespace character does not change
rstripWs. -/
theorem rstripWs_append_ws {w : List Char} (t : List Char)
    (hw : ∀ c ∈ w, isPySpace c = true) : rstripWs (t ++ w) = rstripWs t := by
  unfold rstripWs
  rw [List.reverse_append, List.dropWhile_append]
  have : w.reverse.dropWhile isPySpace = [] := by
    rw [List.dropWhile_eq_nil_iff]
    intro x hx
    exact hw x (by simpa using hx)
  simp [this]

/-- Unfolding of collapseRuns at a non whitespace head. -/
theorem collapseRuns_cons_pos {c : Char} (cs : List Char)
    (h : isPySpace c = false) : collapseRuns (c :: cs) = c :: collapseRuns cs := by
  cases cs with
  | nil => simp [collapseRuns, h]
  | cons c2 cs2 => simp [collapseRuns, h]

/-- Unfolding of collapseRuns at a whitespace head: the whole leading
whitespace run becomes one space. -/
theorem collapseRuns_cons_ws :
    ∀ (cs : List Char) (c : Char), isPySpace c = true →
      collapseRuns (c :: cs) = ' ' :: collapseRuns (lstripWs cs) := by
  intro cs
  induction cs with
  | nil => intro c h; simp [collapseRuns, lstripWs, h]
  | cons c2 cs2 ih =>
    intro c h
    by_cases h2 : isPySpace c2
    · rw [show collapseRuns (c :: c2 :: cs2) = collapseRuns (c2 :: cs2) by
        simp [collapseRuns, h, h2]]
      rw [ih c2 h2]
      simp [lstripWs, List.dropWhile_cons_of_pos h2]
    · have hx : collapseRuns (c :: c2 :: cs2) = ' ' :: c2 :: collapseRuns cs2 := by
        simp [collapseRuns, h, h2]
      rw [hx]
      simp [lstripWs, List.dropWhile_cons_of_neg h2, collapseRuns_cons_pos cs2 (by simpa using h2)]

/-- Unfolding of wsTokens at a whitespace head. -/
theorem wsTokens_cons_ws {c : Char} (cs : List Char) (h : isPySpace c = true) :
    wsTokens (c :: cs) = wsTokens cs := by
  rw [wsTokens]
  simp [h]

/-- Unfolding of wsTokens at a non whitespace head. -/
theorem wsTokens_cons_pos {c : Char} (cs : List Char) (h : isPySpace c = false) :
    wsTokens (c :: cs) =
      (c :: cs.takeWhile (fun x => !isPySpace x)) ::
        wsTokens (cs.dropWhile (fun x => !isPySpace x)) := by
  rw [wsTokens]
  simp [h]

/-- wsTokens ignores leading whitespace. -/
theorem wsTokens_lstrip : ∀ (s : List Char), wsTokens (lstripWs s) = wsTokens s := by
  intro s
  induction s with
  | nil => rfl
  | cons c cs ih =>
    by_cases h : isPySpace c
    · rw [wsTokens_cons_ws cs h, ← ih]
      simp [lstripWs, List.dropWhile_cons_of_pos h]
    · simp [lstripWs, List.dropWhile_cons_of_neg h]

/-- Unfolding of joinSp on a cons cell with a non empty tail. -/
theorem joinSp_cons_ne (t : List Char) {ts : List (List Char)} (h : ts ≠ []) :
    joinSp (t :: ts) = t ++ ' ' :: joinSp ts := by
  cases ts with
  | nil => exact absurd rfl h
  | cons u us => rfl

/-- Strong induction on the length of a character list. -/
theorem listStrongInd {P : List Char → Prop}
    (h : ∀ s, (∀ t : List Char, t.length < s.length → P t) → P s) :
    ∀ s, P s := by
  have key : ∀ (n : Nat) (s : List Char), s.length ≤ n → P s := by
    intro n
    induction n with
    | zero =>
      intro s hs
      exact h s (fun t ht => absurd (Nat.lt_of_lt_of_le ht hs) (Nat.not_lt_zero _))
    | succ n ih =>
      intro s hs
      exact h s (fun t ht => ih t (by omega))
  exact fun s => key s.length s (Nat.le_refl _)

/-- wsTokens of the empty list. -/
theorem wsTokens_nil : wsTokens [] = [] := by
  rw [wsTokens]

/-- collapseRuns passes a whitespace free block through unchanged. -/
theorem collapseRuns_nonws_append :
    ∀ (t : List Char) (r : List Char), (∀ c ∈ t, isPySpace c = false) →
      collapseRuns (t ++ r) = t ++ collapseRuns r := by
  intro t
  induction t with
  | nil => intro r _; rfl
  | cons c t2 ih =>
    intro r h
    rw [List.cons_append, collapseRuns_cons_pos _ (h c (List.mem_cons_self c t2))]
    rw [ih r (fun x hx => h x (List.mem_cons_of_mem c hx))]
    simp

/-- The head of a dropWhile result, phrased with Option.all. -/
theorem head_all_dropWhile (p : Char → Bool) (l : List Char) :
    ((l.dropWhile p).head?.all (fun c => !p c)) = true := by
  cases hh : (l.dropWhile p).head? with
  | none => rfl
  | some c => simpa using head?_dropWhile l hh

/-- The head of lstripWs is never whitespace. -/
theorem lstrip_head_ok (s : List Char) :
    ((lstripWs s).head?.all (fun c => !isPySpace c)) = true :=
  head_all_dropWhile isPySpace s

/-- collapseRuns keeps a non whitespace head. -/
theorem collapseRuns_head_ok {s : List Char}
    (h : s.head?.all (fun c => !isPySpace c) = true) :
    ((collapseRuns s).head?.all (fun c => !isPySpace c)) = true := by
  cases s with
  | nil => rfl
  | cons c cs =>
    simp only [List.head?_cons, Option.all_some] at h
    rw [collapseRuns_cons_pos _ (by simpa using h)]
    simpa using h

/-- lstripWs and collapseRuns commute. -/
theorem lstrip_collapse : ∀ (s : List Char),
    lstripWs (collapseRuns s) = collapseRuns (lstripWs s) := by
  intro s
  induction s with
  | nil => rfl
  | cons c cs ih =>
    by_cases h : isPySpace c
    · rw [collapseRuns_cons_ws cs c h]
      have h1 : lstripWs (c :: cs) = lstripWs cs := by
        simp [lstripWs, List.dropWhile_cons_of_pos h]
      rw [h1]
      have h2 : lstripWs (' ' :: collapseRuns (lstripWs cs)) =
          lstripWs (collapseRuns (lstripWs cs)) := by
        simp [lstripWs, List.dropWhile_cons_of_pos, isPySpace]
      rw [h2]
      exact lstripWs_of_head (collapseRuns_head_ok (lstrip_head_ok cs))
    · rw [collapseRuns_cons_pos _ (by simpa using h)]
      have h1 : lstripWs (c :: collapseRuns cs) = c :: collapseRuns cs := by
        simp [lstripWs, List.dropWhile_cons_of_neg h]
      have h2 : lstripWs (c :: cs) = c :: cs := by
        simp [lstripWs, List.dropWhile_cons_of_neg h]
      rw [h1, h2, collapseRuns_cons_pos _ (by simpa using h)]

/-- wsTokens groups a whitespace free block followed by a whitespace
head remainder as one leading token. -/
theorem wsTokens_tokenHead (c : Char) (t2 r : List Char)
    (hc : isPySpace c = false) (ht : ∀ a ∈ t2, isPySpace a = false)
    (hr : r.head?.all isPySpace = true) :
    wsTokens ((c :: t2) ++ r) = (c :: t2) :: wsTokens r := by
  rw [List.cons_append, wsTokens_cons_pos _ hc]
  have htk : (t2 ++ r).takeWhile (fun x => !isPySpace x) = t2 := by
    rw [List.takeWhile_append_of_pos (by intro a ha; simpa using ht a ha)]
    cases r with
    | nil => simp
    | cons w r1 =>
      simp only [List.head?_cons, Option.all_some] at hr
      rw [List.takeWhile_cons_of_neg (by simpa using hr)]
      simp
  have hdr : (t2 ++ r).dropWhile (fun x => !isPySpace x) = r := by
    rw [List.dropWhile_append_of_pos (by intro a ha; simpa using ht a ha)]
    cases r with
    | nil => rfl
    | cons w r1 =>
      simp only [List.head?_cons, Option.all_some] at hr
      rw [List.dropWhile_cons_of_neg (by simpa using hr)]
  rw [htk, hdr]

/-- A non empty string with a non whitespace head has a non empty
token join. -/
theorem joinSp_wsTokens_ne {s : List Char} (hne : s ≠ [])
    (hh : s.head?.all (fun c => !isPySpace c) = true) :
    joinSp (wsTokens s) ≠ [] := by
  cases s with
  | nil => exact absurd rfl hne
  | cons c cs =>
    simp only [List.head?_cons, Option.all_some, Bool.not_eq_true'] at hh
    rw [wsTokens_cons_pos _ hh]
    cases hw : wsTokens (cs.dropWhile (fun x => !isPySpace x)) with
    | nil => simp [joinSp]
    | cons u us =>
      rw [joinSp_cons_ne _ (List.cons_ne_nil u us)]
      simp

/-- Core normalisation lemma: on a string whose head is not whitespace,
collapsing whitespace runs and stripping the right end gives the single
space join of the tokens. -/
theorem rstrip_collapse_eq_joinSp :
    ∀ s : List Char, s.head?.all (fun c => !isPySpace c) = true →
      rstripWs (collapseRuns s) = joinSp (wsTokens s) := by
  refine listStrongInd (fun s ih => ?_)
  intro hh
  cases s with
  | nil => simp [collapseRuns, rstripWs, wsTokens_nil, joinSp]
  | cons c cs =>
    have hc : isPySpace c = false := by simpa using hh
    have hsplit : (c :: cs.takeWhile (fun x => !isPySpace x)) ++
        cs.dropWhile (fun x => !isPySpace x) = c :: cs := by
      rw [List.cons_append, List.takeWhile_append_dropWhile]
    have ht2 : ∀ a ∈ cs.takeWhile (fun x => !isPySpace x), isPySpace a = false := by
      intro a ha
      simpa using List.mem_takeWhile_imp ha
    have htall : ∀ a ∈ c :: cs.takeWhile (fun x => !isPySpace x), isPySpace a = false := by
      intro a ha
      rcases List.mem_cons.mp ha with h1 | h1
      · subst h1; exact hc
      · exact ht2 a h1
    have hrhead : (cs.dropWhile (fun x => !isPySpace x)).head?.all isPySpace = true := by
      cases hq : (cs.dropWhile (fun x => !isPySpace x)).head? with
      | none => rfl
      | some d =>
        have hd : (fun x => !isPySpace x) d = false := head?_dropWhile cs hq
        simpa using hd
    have hco : collapseRuns (c :: cs) =
        (c :: cs.takeWhile (fun x => !isPySpace x)) ++
          collapseRuns (cs.dropWhile (fun x => !isPySpace x)) := by
      conv_lhs => rw [← hsplit]
      exact collapseRuns_nonws_append _ _ htall
    have htok : wsTokens (c :: cs) =
        (c :: cs.takeWhile (fun x => !isPySpace x)) ::
          wsTokens (cs.dropWhile (fun x => !isPySpace x)) := by
      conv_lhs => rw [← hsplit]
      exact wsTokens_tokenHead c _ _ hc ht2 hrhead
    have hrlen : (cs.dropWhile (fun x => !isPySpace x)).length ≤ cs.length :=
      (List.dropWhile_sublist _).length_le
    cases hq : cs.dropWhile (fun x => !isPySpace x) with
    | nil =>
      rw [hq] at hco htok
      rw [hco, htok, wsTokens_nil]
      simp only [collapseRuns, List.append_nil, joinSp]
      exact rstripWs_all htall
    | cons w r1 =>
      rw [hq] at hco htok hrhead hrlen
      have hw : isPySpace w = true := by simpa using hrhead
      have hcr : collapseRuns (w :: r1) = ' ' :: collapseRuns (lstripWs r1) :=
        collapseRuns_cons_ws r1 w hw
      have htk1 : wsTokens (w :: r1) = wsTokens r1 := wsTokens_cons_ws r1 hw
      have htk2 : wsTokens r1 = wsTokens (lstripWs r1) := (wsTokens_lstrip r1).symm
      cases hq2 : lstripWs r1 with
      | nil =>
        have hz : collapseRuns (lstripWs r1) = [] := by rw [hq2]; rfl
        have htz : wsTokens r1 = [] := by rw [htk2, hq2, wsTokens_nil]
        rw [hco, hcr, hz, htok, htk1, htz]
        have hstep : rstripWs ((c :: cs.takeWhile (fun x => !isPySpace x)) ++ [' ']) =
            rstripWs (c :: cs.takeWhile (fun x => !isPySpace x)) :=
          rstripWs_append_ws _ (by intro x hx; simp at hx; subst hx; rfl)
        rw [hstep, rstripWs_all htall]
        rfl
      | cons d r3 =>
        have h2head : (lstripWs r1).head?.all (fun a => !isPySpace a) = true :=
          lstrip_head_ok r1
        have h2len : (lstripWs r1).length < (c :: cs).length := by
          have hb : (lstripWs r1).length ≤ r1.length :=
            (List.dropWhile_sublist _).length_le
          simp only [List.length_cons] at hrlen ⊢
          omega
        have ihr := ih (lstripWs r1) h2len h2head
        have hne1 : joinSp (wsTokens (lstripWs r1)) ≠ [] :=
          joinSp_wsTokens_ne (by rw [hq2]; exact List.cons_ne_nil d r3) h2head
        have hne2 : rstripWs (collapseRuns (lstripWs r1)) ≠ [] := by
          rw [ihr]; exact hne1
        have htokne : wsTokens (lstripWs r1) ≠ [] := by
          intro hx
          exact hne1 (by rw [hx]; rfl)
        rw [hco, hcr, htok, htk1, htk2]
        have hb : rstripWs (' ' :: collapseRuns (lstripWs r1)) =
            ' ' :: rstripWs (collapseRuns (lstripWs r1)) := by
          have hx := rstripWs_append_of_ne [' '] hne2
          simpa using hx
        have hbne : rstripWs (' ' :: collapseRuns (lstripWs r1)) ≠ [] := by
          rw [hb]; exact List.cons_ne_nil _ _
        rw [show (c :: cs.takeWhile (fun x => !isPySpace x)) ++
            (' ' :: collapseRuns (lstripWs r1)) =
            (c :: cs.takeWhile (fun x => !isPySpace x)) ++
              (' ' :: collapseRuns (lstripWs r1)) from rfl]
        rw [rstripWs_append_of_ne _ hbne, hb, ihr, joinSp_cons_ne _ htokne]

/-- Main characterisation of the normalisation of extract_text: collapse
then strip equals the single space join of the whitespace free tokens. -/
theorem pyStrip_collapse_eq_joinSp (s : List Char) :
    pyStrip (collapseRuns s) = joinSp (wsTokens s) := by
  unfold pyStrip
  rw [lstrip_collapse s, rstrip_collapse_eq_joinSp (lstripWs s) (lstrip_head_ok s),
    wsTokens_lstrip s]

/-- takeWhile ignores a right extension when the left part already
refutes the test somewhere. -/
theorem takeWhile_append_stop {α : Type} {p : α → Bool} :
    ∀ (xs : List α), xs.dropWhile p ≠ [] →
      ∀ ys : List α, (xs ++ ys).takeWhile p = xs.takeWhile p := by
  intro xs
  induction xs with
  | nil => intro h; exact absurd rfl h
  | cons x xs2 ih =>
    intro h ys
    by_cases hp : p x
    · rw [List.dropWhile_cons_of_pos hp] at h
      rw [List.cons_append, List.takeWhile_cons_of_pos hp, ih h ys,
        List.takeWhile_cons_of_pos hp]
    · rw [List.cons_append, List.takeWhile_cons_of_neg hp, List.takeWhile_cons_of_neg hp]

/-- dropWhile distributes over an append whose left part already refutes
the test somewhere. -/
theorem dropWhile_append_stop {α : Type} {p : α → Bool} :
    ∀ (xs : List α), xs.dropWhile p ≠ [] →
      ∀ ys : List α, (xs ++ ys).dropWhile p = xs.dropWhile p ++ ys := by
  intro xs
  induction xs with
  | nil => intro h; exact absurd rfl h
  | cons x xs2 ih =>
    intro h ys
    by_cases hp : p x
    · rw [List.dropWhile_cons_of_pos hp] at h
      rw [List.cons_append, List.dropWhile_cons_of_pos hp, ih h ys,
        List.dropWhile_cons_of_pos hp]
    · rw [List.cons_append, List.dropWhile_cons_of_neg hp, List.dropWhile_cons_of_neg hp]
      simp

/-- Tokens split at an inserted whitespace character. -/
theorem wsTokens_append_ws :
    ∀ (a : List Char) (c : Char) (r : List Char), isPySpace c = true →
      wsTokens (a ++ c :: r) = wsTokens a ++ wsTokens r := by
  have main : ∀ a : List Char,
      (∀ t : List Char, t.length < a.length →
        ∀ (c : Char) (r : List Char), isPySpace c = true →
          wsTokens (t ++ c :: r) = wsTokens t ++ wsTokens r) →
      ∀ (c : Char) (r : List Char), isPySpace c = true →
        wsTokens (a ++ c :: r) = wsTokens a ++ wsTokens r := by
    intro a ih c r hc
    cases a with
    | nil => rw [List.nil_append, wsTokens_nil, List.nil_append, wsTokens_cons_ws _ hc]
    | cons d a2 =>
      by_cases hd : isPySpace d
      · rw [List.cons_append, wsTokens_cons_ws _ hd, wsTokens_cons_ws _ hd]
        exact ih a2 (by simp) c r hc
      · have hd2 : isPySpace d = false := by simpa using hd
        rw [List.cons_append, wsTokens_cons_pos _ hd2, wsTokens_cons_pos _ hd2]
        by_cases hsplit : a2.dropWhile (fun x => !isPySpace x) = []
        · have hall : ∀ x ∈ a2, (fun x => !isPySpace x) x = true :=
            List.dropWhile_eq_nil_iff.mp hsplit
          have htk : (a2 ++ c :: r).takeWhile (fun x => !isPySpace x) = a2 ++ [] := by
            rw [List.takeWhile_append_of_pos hall, List.takeWhile_cons_of_neg (by simpa using hc)]
          have hdr : (a2 ++ c :: r).dropWhile (fun x => !isPySpace x) = c :: r := by
            rw [List.dropWhile_append_of_pos hall, List.dropWhile_cons_of_neg (by simpa using hc)]
          have htk2 : a2.takeWhile (fun x => !isPySpace x) = a2 := by
            rw [List.takeWhile_eq_self_iff]
            exact hall
          rw [htk, hdr, hsplit, wsTokens_nil, htk2, wsTokens_cons_ws _ hc]
          simp
        · rw [takeWhile_append_stop a2 hsplit, dropWhile_append_stop a2 hsplit]
          have hlen : (a2.dropWhile (fun x => !isPySpace x)).length < (d :: a2).length := by
            have hx : (a2.dropWhile (fun x => !isPySpace x)).length ≤ a2.length :=
              (List.dropWhile_sublist _).length_le
            simp only [List.length_cons]
            omega
          rw [ih _ hlen c r hc]
          simp
  exact fun a =>
    listStrongInd (fun s ih => main s (fun t ht => ih t ht)) a

/-- Every token is non empty and whitespace free. -/
theorem tokensGood :
    ∀ s : List Char, ∀ t ∈ wsTokens s, t ≠ [] ∧ ∀ c ∈ t, isPySpace c = false := by
  have main : ∀ s : List Char,
      (∀ u : List Char, u.length < s.length →
        ∀ t ∈ wsTokens u, t ≠ [] ∧ ∀ c ∈ t, isPySpace c = false) →
      ∀ t ∈ wsTokens s, t ≠ [] ∧ ∀ c ∈ t, isPySpace c = false := by
    intro s ih t ht
    cases s with
    | nil => rw [wsTokens_nil] at ht; exact absurd ht (List.not_mem_nil t)
    | cons c cs =>
      by_cases hc : isPySpace c
      · rw [wsTokens_cons_ws _ hc] at ht
        exact ih cs (by simp) t ht
      · have hc2 : isPySpace c = false := by simpa using hc
        rw [wsTokens_cons_pos _ hc2] at ht
        rcases List.mem_cons.mp ht with h1 | h1
        · subst h1
          constructor
          · exact List.cons_ne_nil _ _
          · intro x hx
            rcases List.mem_cons.mp hx with h2 | h2
            · subst h2; exact hc2
            · simpa using List.mem_takeWhile_imp h2
        · have hlen : (cs.dropWhile (fun x => !isPySpace x)).length < (c :: cs).length := by
            have hx : (cs.dropWhile (fun x => !isPySpace x)).length ≤ cs.length :=
              (List.dropWhile_sublist _).length_le
            simp only [List.length_cons]
            omega
          exact ih _ hlen t h1
  exact listStrongInd (fun s ih => main s (fun u hu => ih u hu))

/-- joinSp distributes over an append of two non empty token lists,
inserting exactly one space at the junction. -/
theorem joinSp_append_ne :
    ∀ (l1 l2 : List (List Char)), l1 ≠ [] → l2 ≠ [] →
      joinSp (l1 ++ l2) = joinSp l1 ++ ' ' :: joinSp l2 := by
  intro l1
  induction l1 with
  | nil => intro l2 h _; exact absurd rfl h
  | cons t ts ih =>
    intro l2 _ h2
    cases ts with
    | nil =>
      rw [List.cons_append, List.nil_append, joinSp_cons_ne t h2]
      rfl
    | cons u us =>
      rw [List.cons_append, joinSp_cons_ne t (by simp), joinSp_cons_ne t (by simp),
        ih l2 (by simp) h2]
      simp

/-- Putting any character in front of a list with a non whitespace head
preserves the no adjacent whitespace property. -/
theorem noAdjWs_cons_of_head {z : List Char} (c : Char)
    (hh : z.head?.all (fun x => !isPySpace x) = true) (hz : noAdjWs z = true) :
    noAdjWs (c :: z) = true := by
  cases z with
  | nil => rfl
  | cons z0 z1 =>
    simp only [List.head?_cons, Option.all_some, Bool.not_eq_true'] at hh
    simp [noAdjWs, hh, hz]

/-- A whitespace free list has no adjacent whitespace. -/
theorem noAdjWs_of_all : ∀ {t : List Char}, (∀ c ∈ t, isPySpace c = false) →
    noAdjWs t = true := by
  intro t
  induction t with
  | nil => intro _; rfl
  | cons c t2 ih =>
    intro h
    refine noAdjWs_cons_of_head c ?_ (ih (fun x hx => h x (List.mem_cons_of_mem c hx)))
    cases t2 with
    | nil => rfl
    | cons d t3 => simp [h d (by simp)]

/-- Membership of the last element. -/
theorem getLast?_mem_own : ∀ (l : List Char) (x : Char), l.getLast? = some x → x ∈ l := by
  intro l
  induction l with
  | nil => intro x h; simp at h
  | cons c cs ih =>
    intro x h
    cases cs with
    | nil =>
      simp only [List.getLast?_singleton, Option.some_inj] at h
      subst h
      exact List.mem_cons_self c []
    | cons d ds =>
      rw [List.getLast?_cons_cons] at h
      exact List.mem_cons_of_mem c (ih x h)

/-- Appending after a list whose last element is not whitespace
preserves the no adjacent whitespace property. -/
theorem noAdjWs_append :
    ∀ (a b : List Char), noAdjWs a = true → noAdjWs b = true →
      (∀ x, a.getLast? = some x → isPySpace x = false) →
      noAdjWs (a ++ b) = true := by
  intro a
  induction a with
  | nil => intro b _ hb _; simpa using hb
  | cons x a2 ih =>
    intro b ha hb hlast
    cases a2 with
    | nil =>
      have hx : isPySpace x = false := hlast x (by simp)
      cases b with
      | nil => rfl
      | cons y b2 => simp [noAdjWs, hx, hb]
    | cons x2 a3 =>
      have hpair : (!(isPySpace x && isPySpace x2)) = true := by
        simp only [noAdjWs, Bool.and_eq_true] at ha
        exact ha.1
      have hrest : noAdjWs (x2 :: a3) = true := by
        simp only [noAdjWs, Bool.and_eq_true] at ha
        exact ha.2
      have hlast2 : ∀ y, (x2 :: a3).getLast? = some y → isPySpace y = false := by
        intro y hy
        exact hlast y (by rw [List.getLast?_cons_cons]; exact hy)
      have hih := ih b hrest hb hlast2
      simpa [noAdjWs, hpair] using hih

/-- The join of good tokens has a non whitespace head. -/
theorem joinSp_head_ok :
    ∀ l : List (List Char),
      (∀ t ∈ l, t ≠ [] ∧ ∀ c ∈ t, isPySpace c = false) →
      (joinSp l).head?.all (fun c => !isPySpace c) = true := by
  intro l hl
  cases l with
  | nil => rfl
  | cons t ts =>
    obtain ⟨hne, hall⟩ := hl t (by simp)
    cases t with
    | nil => exact absurd rfl hne
    | cons x t2 =>
      cases ts with
      | nil => simp [joinSp, hall x (by simp)]
      | cons u us =>
        rw [joinSp_cons_ne _ (List.cons_ne_nil u us), List.cons_append]
        simp [hall x (by simp)]

/-- The join of good tokens has no adjacent whitespace. -/
theorem noAdjWs_joinSp :
    ∀ l : List (List Char),
      (∀ t ∈ l, t ≠ [] ∧ ∀ c ∈ t, isPySpace c = false) →
      noAdjWs (joinSp l) = true := by
  intro l
  induction l with
  | nil => intro _; rfl
  | cons t ts ih =>
    intro hl
    obtain ⟨hne, hall⟩ := hl t (by simp)
    cases ts with
    | nil => exact noAdjWs_of_all hall
    | cons u us =>
      rw [joinSp_cons_ne _ (List.cons_ne_nil u us)]
      refine noAdjWs_append t (' ' :: joinSp (u :: us)) (noAdjWs_of_all hall) ?_ ?_
      · refine noAdjWs_cons_of_head ' ' ?_ ?_
        · exact joinSp_head_ok (u :: us) (fun v hv => hl v (List.mem_cons_of_mem t hv))
        · exact ih (fun v hv => hl v (List.mem_cons_of_mem t hv))
      · intro x hx
        exact hall x (getLast?_mem_own t x hx)

/-- The head of rstripWs is the original head, unless everything was
stripped away. -/
theorem head?_rstripWs (y : List Char) :
    rstripWs y = [] ∨ (rstripWs y).head? = y.head? := by
  cases y with
  | nil => exact Or.inl rfl
  | cons c cs =>
    rw [rstripWs_cons]
    by_cases he : rstripWs cs = []
    · rw [if_pos he]
      by_cases hc : isPySpace c
      · rw [if_pos hc]; exact Or.inl rfl
      · rw [if_neg hc]; exact Or.inr rfl
    · rw [if_neg he]; exact Or.inr rfl

/-- The result of pyStrip never starts or ends with whitespace. -/
theorem noEdgeWs_pyStrip (s : List Char) : noEdgeWs (pyStrip s) = true := by
  unfold noEdgeWs pyStrip
  have hrev : (rstripWs (lstripWs s)).reverse = (lstripWs s).reverse.dropWhile isPySpace := by
    unfold rstripWs
    rw [List.reverse_reverse]
  rw [hrev]
  have h2 := head_all_dropWhile isPySpace (lstripWs s).reverse
  rcases head?_rstripWs (lstripWs s) with h1 | h1
  · rw [h1]
    simpa using h2
  · rw [h1]
    simp only [Bool.and_eq_true]
    exact ⟨lstrip_head_ok s, h2⟩

/-- cleanJoin of one non empty page text is the token join of that
text. -/
theorem cleanJoin_single (t : List Char) (h : t ≠ []) :
    cleanJoin [t] = joinSp (wsTokens t) := by
  unfold cleanJoin
  rw [show ([t].filter (fun x => x ≠ [])) = [t] by simp [List.filter_cons, h]]
  rw [show joinDoubleNewline [t] = t from rfl]
  exact pyStrip_collapse_eq_joinSp t

/-- cleanJoin of two non empty page texts is the token join of the
concatenated token lists. -/
theorem cleanJoin_pair (t1 t2 : List Char) (h1 : t1 ≠ []) (h2 : t2 ≠ []) :
    cleanJoin [t1, t2] = joinSp (wsTokens t1 ++ wsTokens t2) := by
  unfold cleanJoin
  rw [show ([t1, t2].filter (fun x => x ≠ [])) = [t1, t2] by
    simp [List.filter_cons, h1, h2]]
  rw [show joinDoubleNewline [t1, t2] = t1 ++ '\n' :: '\n' :: t2 from rfl]
  rw [pyStrip_collapse_eq_joinSp]
  rw [show (t1 ++ '\n' :: '\n' :: t2 : List Char) = t1 ++ '\n' :: ('\n' :: t2) from rfl]
  rw [wsTokens_append_ws t1 '\n' ('\n' :: t2) (by decide)]
  rw [wsTokens_cons_ws t2 (by decide)]

/-- C4: for every sequence of page texts, the extraction normalisation
(join the non empty page texts with a double newline, collapse every
whitespace run to one space, trim) gives an output with no leading or
trailing whitespace and no two adjacent whitespace characters, and two
page texts that both contain visible content end up separated by exactly
one space.  Non empty is read as containing a non whitespace character,
since a whitespace only page text contributes no content. -/
theorem c4_extract_normalization (ts : List (List Char)) (t1 t2 : List Char)
    (h1 : wsTokens t1 ≠ []) (h2 : wsTokens t2 ≠ []) :
    noEdgeWs (cleanJoin ts) = true ∧ noAdjWs (cleanJoin ts) = true ∧
      cleanJoin [t1, t2] = cleanJoin [t1] ++ ' ' :: cleanJoin [t2] := by
  refine ⟨?_, ?_, ?_⟩
  · unfold cleanJoin
    exact noEdgeWs_pyStrip _
  · unfold cleanJoin
    rw [pyStrip_collapse_eq_joinSp]
    exact noAdjWs_joinSp _ (tokensGood _)
  · have ht1 : t1 ≠ [] := by
      intro hx
      rw [hx, wsTokens_nil] at h1
      exact h1 rfl
    have ht2 : t2 ≠ [] := by
      intro hx
      rw [hx, wsTokens_nil] at h2
      exact h2 rfl
    rw [cleanJoin_pair t1 t2 ht1 ht2, cleanJoin_single t1 ht1, cleanJoin_single t2 ht2]
    exact joinSp_append_ne _ _ h1 h2

/-- Witness for C4 at concrete inputs. -/
theorem c4_extract_normalization_witness :
    noEdgeWs (cleanJoin ["a \t b".toList]) = true ∧
      noAdjWs (cleanJoin ["a \t b".toList]) = true ∧
      cleanJoin [['x'], ['y']] = cleanJoin [['x']] ++ ' ' :: cleanJoin [['y']] :=
  c4_extract_normalization ["a \t b".toList] ['x'] ['y']
    (by rw [wsTokens_cons_pos _ (by decide)]; simp)
    (by rw [wsTokens_cons_pos _ (by decide)]; simp)

/-- A digit string contains no dash. -/
theorem digits_no_dash {ds : List Char} (hd : ∀ c ∈ ds, isAsciiDigit c = true) :
    ds.any (fun c => c = '-') = false := by
  rw [← Bool.not_eq_true, List.any_eq_true]
  rintro ⟨x, hx, hxd⟩
  simp only [decide_eq_true_eq] at hxd
  exact digit_not_dash (hd x hx) hxd

/-- matchRange on a digit string, a dash and a digit string gives the
two numeric values. -/
theorem matchRange_digits (ds es : List Char) (hds : ds ≠ []) (hes : es ≠ [])
    (hd : ∀ c ∈ ds, isAsciiDigit c = true) (he : ∀ c ∈ es, isAsciiDigit c = true) :
    matchRange (ds ++ '-' :: es) = some (digitsVal ds, digitsVal es) := by
  have htk : (ds ++ '-' :: es).takeWhile isAsciiDigit = ds := by
    rw [List.takeWhile_append_of_pos hd, List.takeWhile_cons_of_neg (by decide)]
    simp
  have hdr : (ds ++ '-' :: es).dropWhile isAsciiDigit = '-' :: es := by
    rw [List.dropWhile_append_of_pos hd, List.dropWhile_cons_of_neg (by decide)]
  have hws : ('-' :: es).dropWhile isPySpace = '-' :: es :=
    List.dropWhile_cons_of_neg (by decide)
  have hr3 : es.dropWhile isPySpace = es := by
    cases es with
    | nil => rfl
    | cons e es2 =>
      exact List.dropWhile_cons_of_neg (by simp [digit_not_space (he e (by simp))])
  have hd2 : es.takeWhile isAsciiDigit = es := List.takeWhile_eq_self_iff.mpr he
  have hr4 : es.dropWhile isAsciiDigit = [] := List.dropWhile_eq_nil_iff.mpr he
  simp only [matchRange]
  rw [htk, hdr, hws]
  simp only [hr3, hd2, hr4]
  rw [if_neg hds, if_neg hes]
  simp

/-- C1: parser success postcondition.  For a decimal numeral string with
value a between 1 and the total page count, parsing gives the one
element list containing a; for two numeral strings with values a and b,
1 at most a, a at most b, b at most the total, parsing the dash joined
range gives the inclusive sequence from a to b, here written as
List.range' a (b + 1 - a). -/
theorem c1_parser_success (total a b : Nat) (ds es : List Char)
    (hds : ds ≠ []) (hd : ∀ c ∈ ds, isAsciiDigit c = true) (hda : digitsVal ds = a)
    (hes : es ≠ []) (he : ∀ c ∈ es, isAsciiDigit c = true) (heb : digitsVal es = b)
    (h1 : 1 ≤ a) (hab : a ≤ b) (hbt : b ≤ total) :
    parse_page_input ds total = .ok [a] ∧
      parse_page_input (ds ++ '-' :: es) total = .ok (List.range' a (b + 1 - a)) := by
  constructor
  · have hnws : ∀ c ∈ ds, isPySpace c = false := fun c hc => digit_not_space (hd c hc)
    have ha0 : a ≠ 0 := by omega
    have hnt : ¬ total < a := by omega
    have hcond : (decide (ds ≠ []) && ds.all isAsciiDigit) = true := by
      rw [Bool.and_eq_true, List.all_eq_true]
      exact ⟨by simpa using hds, hd⟩
    simp only [parse_page_input]
    rw [pyStrip_all hnws, digits_no_dash hd]
    simp only [Bool.false_eq_true, if_false, hcond, if_true]
    rw [hda, if_neg (show ¬ a < 1 by omega), if_neg hnt]
  · have hnws : ∀ c ∈ ds ++ '-' :: es, isPySpace c = false := by
      intro c hc
      rcases List.mem_append.mp hc with h | h
      · exact digit_not_space (hd c h)
      · rcases List.mem_cons.mp h with h | h
        · subst h; decide
        · exact digit_not_space (he c h)
    have hany : (ds ++ '-' :: es).any (fun c => c = '-') = true := by
      rw [List.any_eq_true]
      exact ⟨'-', by simp, by simp⟩
    have ha0 : a ≠ 0 := by omega
    have hnb : ¬ b < a := by omega
    have hnt : ¬ total < b := by omega
    simp only [parse_page_input]
    rw [pyStrip_all hnws, hany]
    simp only [if_true]
    rw [matchRange_digits ds es hds hes hd he, hda, heb]
    simp [ha0, hnb, hnt]

/-- Witness for C1 at concrete inputs. -/
theorem c1_parser_success_witness :
    parse_page_input ['2'] 5 = .ok [2] ∧
      parse_page_input (['2'] ++ '-' :: ['4']) 5 = .ok (List.range' 2 3) :=
  c1_parser_success 5 2 4 ['2'] ['4'] (by decide) (by decide) (by decide)
    (by decide) (by decide) (by decide) (by decide) (by decide) (by decide)

/-- C2 amended: the parser rejects every specifier that fails the
grammar or a bound check and returns no page list for these, and the
first failing check wins in the order format, then start at least 1
(ranges check only the start against 1), then start at most end, then
end or the single page at most the total count.  This is the claimed
order except that a range end below 1 is reported through the start at
most end check rather than an endpoint check of its own. -/
theorem c2_parser_validation_order (input : List Char) (total : Nat) :
    parse_page_input input total = parsePageAmended input total := by
  unfold parse_page_input parsePageAmended pageSpecFormat
  by_cases hdash : (pyStrip input).any (fun c => c = '-') = true
  · simp only [hdash, if_true]
    cases hm : matchRange (pyStrip input) with
    | none => simp [hm]
    | some ab =>
      obtain ⟨a, b⟩ := ab
      simp [hm]
  · simp only [Bool.not_eq_true] at hdash
    simp only [hdash, Bool.false_eq_true, if_false]
    by_cases hall : ∀ x ∈ pyStrip input, isAsciiDigit x = true
    · by_cases hne : pyStrip input = []
      · simp [hne, hall]
      · have hcb : (decide (pyStrip input ≠ []) && (pyStrip input).all isAsciiDigit) = true := by
          rw [Bool.and_eq_true, List.all_eq_true]
          exact ⟨by simpa using hne, hall⟩
        rw [hcb]
        simp
    · simp [hall]

/-- C2 counterexample: on the specifier 1-0 with five total pages, the
range end 0 fails the endpoint at least 1 condition, so the claimed
order demands the endpoint error first, but the source raises the start
at most end error. -/
theorem c2_counterexample :
    parse_page_input ['1', '-', '0'] 5 = .error .rangeOrder ∧
      claimFirstFailure ['1', '-', '0'] 5 = some .endpointLowCat ∧
      errCat .rangeOrder ≠ ClaimErrCat.endpointLowCat := by
  refine ⟨rfl, rfl, by decide⟩

/-- C3: composition rule of generate_qr.  With a non empty link the
composed content is exactly the text, the literal separator and label,
and the link; with no link the composed content is the text verbatim.
The suffix is appended after extraction normalisation and is never
normalised itself, which the literal newline characters of the separator
witness. -/
theorem c3_composition (t l : List Char) (hl : l ≠ []) :
    composeContent t l = t ++ "\n\n---\nGoogle Drive Link: ".toList ++ l ∧
      composeContent t [] = t := by
  constructor
  · simp [composeContent, googleLinkSep, hl]
  · simp [composeContent]

/-- Witness for C3 at concrete inputs. -/
theorem c3_composition_witness :
    composeContent "text".toList "https://x".toList =
      "text".toList ++ "\n\n---\nGoogle Drive Link: ".toList ++ "https://x".toList ∧
      composeContent "text".toList [] = "text".toList :=
  c3_composition "text".toList "https://x".toList (by decide)

/-- C7: the URL normaliser trims its input; when the trimmed result is
non empty, starts with none of the three known schemes, contains a dot
and no space, the output is https:// put in front of the trimmed result;
in every other case the output is the trimmed input unchanged. -/
theorem c7_url_normalizer (url : List Char) : validate_url url = urlNormalizerSpec url := by
  simp only [validate_url, urlNormalizerSpec]
  split_ifs with h1 h2 h3 <;> simp_all
  exact absurd rfl (h2.2 ' ' h3)

/-- C6 amended: the auxiliary link validator accepts empty or whitespace
only input with no warning; rejects non empty input lacking the http or
https scheme at the start; and for accepted input gives no warning
exactly when the lowercased URL contains one of the recognised domain
strings as a contiguous substring anywhere, not only as its host. -/
theorem c6_link_validator (url : List Char) :
    validate_google_drive_link url = linkValidatorAmended url := by
  simp only [validate_google_drive_link, linkValidatorAmended]
  split_ifs <;> simp_all
  all_goals exact absurd (rfl : pyStrip [] = []) (by assumption)

/-- C9: when opening a picked document fails, the session document state
is reset to none loaded: the document handle and path are cleared and
the total page count becomes 0, while the artifact and text fields stay
untouched. -/
theorem c9_open_failure_resets (st : AppState) (path : List Char) :
    (browse_pdf st (some path) none).1.pdf_pages = none ∧
      (browse_pdf st (some path) none).1.pdf_path = none ∧
      (browse_pdf st (some path) none).1.total_pages = 0 ∧
      (browse_pdf st (some path) none).1.qr_image = st.qr_image ∧
      (browse_pdf st (some path) none).1.extracted_text = st.extracted_text ∧
      (browse_pdf st (some path) none).1.google_drive_link = st.google_drive_link ∧
      (browse_pdf st (some path) none).1.url_qr_image = st.url_qr_image ∧
      (browse_pdf st (some path) none).2 = BrowseResult.openFailed :=
  ⟨rfl, rfl, rfl, rfl, rfl, rfl, rfl, rfl⟩

/-- Extraction and encoding on an empty extraction result: warn and
abort, with extracted_text already replaced by the empty string. -/
theorem ee_empty (st : AppState) (pages : List (List Char)) (nums : List Nat)
    (dl : List Char) (sc : Bool) (h : extract_text pages nums = []) :
    generate_qr_extract_encode st pages nums dl sc =
      ⟨{ st with extracted_text := [] }, .emptyExtraction, false⟩ := by
  unfold generate_qr_extract_encode
  simp [h]

/-- Extraction and encoding with a large payload and a declined
confirmation: abort, with text and link already stored and no artifact
change. -/
theorem ee_declined (st : AppState) (pages : List (List Char)) (nums : List Nat)
    (dl : List Char) (hT : extract_text pages nums ≠ [])
    (hC : 2000 < (composeContent (extract_text pages nums) dl).length) :
    generate_qr_extract_encode st pages nums dl false =
      ⟨{ st with extracted_text := extract_text pages nums, google_drive_link := dl },
        .sizeDeclined (composeContent (extract_text pages nums) dl), true⟩ := by
  unfold generate_qr_extract_encode
  simp [hT, hC]

/-- Extraction and encoding with a large payload and a granted
confirmation: encode after showing the prompt. -/
theorem ee_success_big (st : AppState) (pages : List (List Char)) (nums : List Nat)
    (dl : List Char) (hT : extract_text pages nums ≠ [])
    (hC : 2000 < (composeContent (extract_text pages nums) dl).length) :
    generate_qr_extract_encode st pages nums dl true =
      ⟨{ st with
          extracted_text := extract_text pages nums,
          google_drive_link := dl,
          qr_image := some (composeContent (extract_text pages nums) dl) },
        .success (composeContent (extract_text pages nums) dl), true⟩ := by
  unfold generate_qr_extract_encode
  simp [hT, hC]

/-- Extraction and encoding with a small payload: encode with no
prompt. -/
theorem ee_success_small (st : AppState) (pages : List (List Char)) (nums : List Nat)
    (dl : List Char) (sc : Bool) (hT : extract_text pages nums ≠ [])
    (hC : ¬ 2000 < (composeContent (extract_text pages nums) dl).length) :
    generate_qr_extract_encode st pages nums dl sc =
      ⟨{ st with
          extracted_text := extract_text pages nums,
          google_drive_link := dl,
          qr_image := some (composeContent (extract_text pages nums) dl) },
        .success (composeContent (extract_text pages nums) dl), false⟩ := by
  unfold generate_qr_extract_encode
  simp [hT, hC]

/-- A non empty extraction never reports the empty extraction abort. -/
theorem ee_not_empty_result (st : AppState) (pages : List (List Char)) (nums : List Nat)
    (dl : List Char) (sc : Bool) (hT : extract_text pages nums ≠ []) :
    (generate_qr_extract_encode st pages nums dl sc).result ≠ .emptyExtraction := by
  unfold generate_qr_extract_encode
  simp only [hT, Bool.false_eq_true, if_false]
  split_ifs <;> simp

/-- The size prompt of the extraction and encoding block is shown
exactly when the run reaches the size check with a payload above 2000
characters. -/
theorem ee_prompt_iff (st : AppState) (pages : List (List Char)) (nums : List Nat)
    (dl : List Char) (sc : Bool) :
    (generate_qr_extract_encode st pages nums dl sc).sizePromptShown = true ↔
      ∃ r, ((generate_qr_extract_encode st pages nums dl sc).result = .sizeDeclined r ∨
        (generate_qr_extract_encode st pages nums dl sc).result = .success r) ∧
        2000 < r.length := by
  by_cases hT : extract_text pages nums = []
  · rw [ee_empty st pages nums dl sc hT]
    simp
  · by_cases hC : 2000 < (composeContent (extract_text pages nums) dl).length
    · cases sc
      · rw [ee_declined st pages nums dl hT hC]
        simp [hC]
      · rw [ee_success_big st pages nums dl hT hC]
        simp [hC]
    · rw [ee_success_small st pages nums dl sc hT hC]
      simp [hC]

/-- Every run of generate_qr either aborts before extraction with the
state unchanged, no prompt and none of the late results, or it reduces
to the extraction and encoding block on the loaded pages and the parsed
page numbers. -/
theorem generate_qr_run (st : AppState) (pe de : List Char) (lc sc : Bool) :
    ((generate_qr st pe de lc sc).state = st ∧
      (generate_qr st pe de lc sc).sizePromptShown = false ∧
      (∀ p, (generate_qr st pe de lc sc).result ≠ .sizeDeclined p) ∧
      (∀ p, (generate_qr st pe de lc sc).result ≠ .success p) ∧
      (generate_qr st pe de lc sc).result ≠ .emptyExtraction) ∨
    (∃ pages nums, st.pdf_pages = some pages ∧
      parse_page_input (pyStrip pe) st.total_pages = .ok nums ∧
      generate_qr st pe de lc sc =
        generate_qr_extract_encode st pages nums (pyStrip de) sc) := by
  unfold generate_qr
  cases hp : st.pdf_pages with
  | none => exact Or.inl ⟨rfl, rfl, by simp, by simp, by simp⟩
  | some pages =>
    by_cases hpi : pyStrip pe = []
    · simp only [hpi, if_pos rfl]
      exact Or.inl ⟨rfl, rfl, by simp, by simp, by simp⟩
    · simp only [if_neg hpi]
      cases hparse : parse_page_input (pyStrip pe) st.total_pages with
      | error e =>
        exact Or.inl ⟨rfl, rfl, by simp, by simp, by simp⟩
      | ok nums =>
        by_cases hdl : pyStrip de = []
        · simp only [hdl, if_pos rfl]
          exact Or.inr ⟨pages, nums, rfl, rfl, by simp⟩
        · simp only [if_neg hdl]
          cases hv : validate_google_drive_link (pyStrip de) with
          | mk ok msg =>
            cases ok with
            | false => exact Or.inl ⟨rfl, rfl, by simp, by simp, by simp⟩
            | true =>
              cases msg with
              | none => exact Or.inr ⟨pages, nums, rfl, rfl, rfl⟩
              | some w =>
                cases lc with
                | false => exact Or.inl ⟨rfl, rfl, by simp, by simp, by simp⟩
                | true => exact Or.inr ⟨pages, nums, rfl, rfl, by simp⟩

/-- Inversion of a declined size prompt in the URL workflow: the state
is fully unchanged, the prompt was shown, and the payload is the
normalised input with length above 2000. -/
theorem url_declined_inv (st : AppState) (inp : List Char) (sc : Bool) (q : List Char)
    (h : (generate_qr_from_url st inp sc).result = .sizeDeclined q) :
    (generate_qr_from_url st inp sc).state = st ∧
      (generate_qr_from_url st inp sc).sizePromptShown = true ∧
      q = validate_url inp ∧ 2000 < q.length ∧ sc = false := by
  unfold generate_qr_from_url at h ⊢
  by_cases h1 : (decide (inp = urlPlaceholder) || decide (pyStrip inp = [])) = true
  · rw [if_pos h1] at h
    simp at h
  · rw [if_neg h1] at h ⊢
    by_cases hC : 2000 < (validate_url inp).length
    · rw [if_pos hC] at h ⊢
      cases sc
      · simp only [Bool.false_eq_true, if_false] at h ⊢
        simp at h
        subst h
        simp [hC]
      · simp at h
    · rw [if_neg hC] at h
      simp at h

/-- The size prompt of the URL workflow is shown exactly when the run
reaches the size check with a payload above 2000 characters. -/
theorem url_prompt_iff (st : AppState) (inp : List Char) (sc : Bool) :
    (generate_qr_from_url st inp sc).sizePromptShown = true ↔
      ∃ r, ((generate_qr_from_url st inp sc).result = .sizeDeclined r ∨
        (generate_qr_from_url st inp sc).result = .success r) ∧ 2000 < r.length := by
  unfold generate_qr_from_url
  by_cases h1 : (decide (inp = urlPlaceholder) || decide (pyStrip inp = [])) = true
  · simp [h1]
  · simp only [h1, Bool.false_eq_true, if_false]
    by_cases hC : 2000 < (validate_url inp).length
    · cases sc <;> simp [hC]
    · simp [hC]

/-- C8: when every selected page yields no extractable text, the
extraction result is the empty string, a valid outcome rather than an
exception; a generation run that ends at the empty extraction warning
aborts before encoding and leaves the prior artifacts of both workflows
untouched. -/
theorem c8_empty_extraction (texts : List (List Char)) (st : AppState)
    (pe de : List Char) (lc sc : Bool)
    (hall : ∀ t ∈ texts, t = [])
    (hres : (generate_qr st pe de lc sc).result = .emptyExtraction) :
    cleanJoin texts = [] ∧
      (generate_qr st pe de lc sc).state.qr_image = st.qr_image ∧
      (generate_qr st pe de lc sc).state.url_qr_image = st.url_qr_image := by
  constructor
  · have hf : texts.filter (fun t => t ≠ []) = [] := by
      rw [List.filter_eq_nil_iff]
      intro a ha
      simp [hall a ha]
    unfold cleanJoin
    rw [hf]
    rfl
  · rcases generate_qr_run st pe de lc sc with ⟨_, _, _, _, hne⟩ |
      ⟨pages, nums, hp, hpar, heq⟩
    · exact absurd hres hne
    · rw [heq] at hres ⊢
      by_cases hT : extract_text pages nums = []
      · rw [ee_empty st pages nums (pyStrip de) sc hT]
        exact ⟨rfl, rfl⟩
      · exact absurd hres (ee_not_empty_result st pages nums (pyStrip de) sc hT)

/-- C10: generate_qr stores the newly extracted text before the empty
check and stores the link before the size prompt.  A run aborting at the
empty extraction warning has already replaced extracted_text by the
empty string, and a run aborting at a declined size confirmation has
already replaced extracted_text by the new extraction and
google_drive_link by the supplied stripped link, while qr_image still
holds the prior artifact in both cases, as the state equations
exhibit. -/
theorem c10_mutation_before_abort (st st2 : AppState) (pe de pe2 de2 : List Char)
    (lc sc lc2 : Bool) (p : List Char)
    (h1 : (generate_qr st pe de lc sc).result = .emptyExtraction)
    (h2 : (generate_qr st2 pe2 de2 lc2 false).result = .sizeDeclined p) :
    (generate_qr st pe de lc sc).state = { st with extracted_text := [] } ∧
      ∃ pages nums, st2.pdf_pages = some pages ∧
        parse_page_input (pyStrip pe2) st2.total_pages = .ok nums ∧
        extract_text pages nums ≠ [] ∧
        (generate_qr st2 pe2 de2 lc2 false).state =
          { st2 with
              extracted_text := extract_text pages nums,
              google_drive_link := pyStrip de2 } ∧
        p = composeContent (extract_text pages nums) (pyStrip de2) := by
  constructor
  · rcases generate_qr_run st pe de lc sc with ⟨_, _, _, _, hne⟩ |
      ⟨pages, nums, hp, hpar, heq⟩
    · exact absurd h1 hne
    · rw [heq] at h1 ⊢
      by_cases hT : extract_text pages nums = []
      · rw [ee_empty st pages nums (pyStrip de) sc hT]
      · exact absurd h1 (ee_not_empty_result st pages nums (pyStrip de) sc hT)
  · rcases generate_qr_run st2 pe2 de2 lc2 false with ⟨_, _, hnd, _, _⟩ |
      ⟨pages, nums, hp, hpar, heq⟩
    · exact absurd h2 (hnd p)
    · refine ⟨pages, nums, hp, hpar, ?_⟩
      rw [heq] at h2 ⊢
      by_cases hT : extract_text pages nums = []
      · rw [ee_empty st2 pages nums (pyStrip de2) false hT] at h2
        simp at h2
      · by_cases hC : 2000 <
            (composeContent (extract_text pages nums) (pyStrip de2)).length
        · rw [ee_declined st2 pages nums (pyStrip de2) hT hC] at h2 ⊢
          simp only [GenResult.sizeDeclined.injEq] at h2
          exact ⟨hT, rfl, h2.symm⟩
        · rw [ee_success_small st2 pages nums (pyStrip de2) false hT hC] at h2
          simp at h2

/-- C5 amended: in both workflows, for every run, the size confirmation
prompt appears exactly when the run reaches the size check with a
composed payload above 2000 characters, so a payload of at most 2000
characters is encoded with no prompt and a confirmed large run was
prompted; declining the prompt aborts the run with no artifact produced
and the prior artifact of either workflow kept, and in the URL workflow
the whole session state is unchanged.  In the PDF workflow the abort is
not free of side effects: extracted_text and google_drive_link have
already been replaced, which the counterexample exhibits. -/
theorem c5_size_limit_policy (st : AppState) (pe de : List Char) (lc sc : Bool)
    (st2 : AppState) (inp : List Char) (sc2 : Bool) (p q : List Char)
    (hd : (generate_qr st pe de lc sc).result = .sizeDeclined p)
    (hu : (generate_qr_from_url st2 inp sc2).result = .sizeDeclined q) :
    (∀ (st3 : AppState) (pe3 de3 : List Char) (lc3 sc3 : Bool),
      (generate_qr st3 pe3 de3 lc3 sc3).sizePromptShown = true ↔
        ∃ r, ((generate_qr st3 pe3 de3 lc3 sc3).result = .sizeDeclined r ∨
          (generate_qr st3 pe3 de3 lc3 sc3).result = .success r) ∧ 2000 < r.length) ∧
    (∀ (st4 : AppState) (inp4 : List Char) (sc4 : Bool),
      (generate_qr_from_url st4 inp4 sc4).sizePromptShown = true ↔
        ∃ r, ((generate_qr_from_url st4 inp4 sc4).result = .sizeDeclined r ∨
          (generate_qr_from_url st4 inp4 sc4).result = .success r) ∧ 2000 < r.length) ∧
    (generate_qr st pe de lc sc).state.qr_image = st.qr_image ∧
    (generate_qr st pe de lc sc).state.url_qr_image = st.url_qr_image ∧
    (generate_qr_from_url st2 inp sc2).state = st2 := by
  have hframe : (generate_qr st pe de lc sc).state.qr_image = st.qr_image ∧
      (generate_qr st pe de lc sc).state.url_qr_image = st.url_qr_image := by
    rcases generate_qr_run st pe de lc sc with ⟨hst, _, hnd, _, _⟩ |
      ⟨pages, nums, hp, hpar, heq⟩
    · exact absurd hd (hnd p)
    · rw [heq] at hd ⊢
      by_cases hT : extract_text pages nums = []
      · rw [ee_empty st pages nums (pyStrip de) sc hT]
        exact ⟨rfl, rfl⟩
      · by_cases hC : 2000 <
            (composeContent (extract_text pages nums) (pyStrip de)).length
        · cases sc
          · rw [ee_declined st pages nums (pyStrip de) hT hC]
            exact ⟨rfl, rfl⟩
          · rw [ee_success_big st pages nums (pyStrip de) hT hC] at hd
            simp at hd
        · rw [ee_success_small st pages nums (pyStrip de) sc hT hC] at hd
          simp at hd
  have hpdfIff : ∀ (st3 : AppState) (pe3 de3 : List Char) (lc3 sc3 : Bool),
      (generate_qr st3 pe3 de3 lc3 sc3).sizePromptShown = true ↔
        ∃ r, ((generate_qr st3 pe3 de3 lc3 sc3).result = .sizeDeclined r ∨
          (generate_qr st3 pe3 de3 lc3 sc3).result = .success r) ∧ 2000 < r.length := by
    intro st3 pe3 de3 lc3 sc3
    rcases generate_qr_run st3 pe3 de3 lc3 sc3 with ⟨_, hsh, hnd, hns, _⟩ |
      ⟨pages, nums, hp3, hpar, heq⟩
    · rw [hsh]
      constructor
      · intro hfalse
        exact absurd hfalse (by simp)
      · rintro ⟨r, hr | hr, _⟩
        · exact absurd hr (hnd r)
        · exact absurd hr (hns r)
    · rw [heq]
      exact ee_prompt_iff st3 pages nums (pyStrip de3) sc3
  exact ⟨hpdfIff, fun st4 inp4 sc4 => url_prompt_iff st4 inp4 sc4, hframe.1, hframe.2,
    (url_declined_inv st2 inp sc2 q hu).1⟩

/-- collapseRuns keeps a whitespace free string unchanged. -/
theorem collapseRuns_all {s : List Char} (h : ∀ c ∈ s, isPySpace c = false) :
    collapseRuns s = s := by
  have hx := collapseRuns_nonws_append s [] h
  rw [show collapseRuns ([] : List Char) = [] from rfl, List.append_nil] at hx
  exact hx

/-- Every character of the big example page is the letter a, hence not
whitespace. -/
theorem bigPage_all_nonws : ∀ c ∈ bigPage, isPySpace c = false := by
  intro c hc
  rw [List.eq_of_mem_replicate hc]
  rfl

/-- The big example page has 2001 characters. -/
theorem bigPage_length : bigPage.length = 2001 := by
  unfold bigPage
  exact List.length_replicate 2001 'a'

/-- The big example page is non empty. -/
theorem bigPage_ne_nil : bigPage ≠ [] := by
  intro h
  have hlen := congrArg List.length h
  rw [bigPage_length] at hlen
  simp at hlen

/-- Extraction of the single big page returns it unchanged. -/
theorem extract_bigPage : extract_text [bigPage] [1] = bigPage := by
  show cleanJoin [[bigPage].getD 0 []] = bigPage
  rw [show ([bigPage].getD 0 [] : List Char) = bigPage from rfl]
  unfold cleanJoin
  rw [show ([bigPage].filter (fun t => t ≠ [])) = [bigPage] by
    simp [List.filter_cons, bigPage_ne_nil]]
  rw [show joinDoubleNewline [bigPage] = bigPage from rfl]
  rw [collapseRuns_all bigPage_all_nonws]
  exact pyStrip_all bigPage_all_nonws

/-- Reduction of the example PDF run to the extraction and encoding
block: the document is loaded, the page specifier parses, the link entry
is empty. -/
theorem exRun_pdf_step : generate_qr exPriorState ['1'] [] true false =
    generate_qr_extract_encode exPriorState [bigPage] [1] [] false := by
  have hp : exPriorState.pdf_pages = some [bigPage] := rfl
  have hpi : pyStrip ['1'] = ['1'] := rfl
  have hde : pyStrip ([] : List Char) = [] := rfl
  have hparse : parse_page_input ['1'] exPriorState.total_pages = .ok [1] := rfl
  unfold generate_qr
  rw [hp]
  simp [hpi, hde, hparse]

/-- The example PDF run with a declined size confirmation. -/
theorem exRun_pdf : generate_qr exPriorState ['1'] [] true false =
    ⟨{ exPriorState with extracted_text := bigPage, google_drive_link := [] },
      .sizeDeclined bigPage, true⟩ := by
  have h1 := exRun_pdf_step
  have hT : extract_text [bigPage] [1] ≠ [] := by
    rw [extract_bigPage]
    exact bigPage_ne_nil
  have hC : 2000 < (composeContent (extract_text [bigPage] [1]) []).length := by
    rw [extract_bigPage, show composeContent bigPage [] = bigPage from rfl,
      bigPage_length]
    omega
  rw [h1, ee_declined exPriorState [bigPage] [1] [] hT hC, extract_bigPage,
    show composeContent bigPage [] = bigPage from rfl]

/-- The example PDF run on the page with no text. -/
theorem exRun_empty : generate_qr exEmptyState ['1'] [] true true =
    ⟨{ exEmptyState with extracted_text := [] }, .emptyExtraction, false⟩ := by
  rfl

/-- The URL normaliser leaves the big example text unchanged. -/
theorem validate_url_bigPage : validate_url bigPage = bigPage := by
  simp only [validate_url]
  rw [pyStrip_all bigPage_all_nonws]
  have hdot : bigPage.any (fun c => c = '.') = false := by
    rw [← Bool.not_eq_true, List.any_eq_true]
    rintro ⟨x, hx, hxe⟩
    rw [List.eq_of_mem_replicate hx] at hxe
    simp at hxe
  simp [hdot]

/-- The example URL run with a declined size confirmation. -/
theorem exRun_url : generate_qr_from_url exPriorState bigPage false =
    ⟨exPriorState, .sizeDeclined bigPage, true⟩ := by
  simp only [generate_qr_from_url]
  rw [validate_url_bigPage]
  have h1 : bigPage ≠ urlPlaceholder := by decide
  have h2 : pyStrip bigPage = bigPage := pyStrip_all bigPage_all_nonws
  have hb1 : (decide (bigPage = urlPlaceholder)) = false := decide_eq_false h1
  have hb2 : (decide (pyStrip bigPage = [])) = false := by
    rw [h2]
    exact decide_eq_false bigPage_ne_nil
  rw [if_neg (by rw [hb1, hb2]; simp)]
  rw [if_pos (show 2000 < bigPage.length by rw [bigPage_length]; omega)]
  rw [if_neg (by simp)]

/-- C5 counterexample: with a loaded page of 2001 characters and a
declined size confirmation, the PDF workflow aborts, yet the session is
changed: extracted_text has been replaced, refuting the no side effects
clause, even though the prior artifact is kept. -/
theorem c5_counterexample :
    (generate_qr exPriorState ['1'] [] true false).result = .sizeDeclined bigPage ∧
      2000 < bigPage.length ∧
      (generate_qr exPriorState ['1'] [] true false).state.extracted_text ≠
        exPriorState.extracted_text ∧
      (generate_qr exPriorState ['1'] [] true false).state.qr_image =
        exPriorState.qr_image := by
  rw [exRun_pdf]
  refine ⟨rfl, by rw [bigPage_length]; omega, ?_, rfl⟩
  decide

/-- Witness for C5 at the concrete declined runs. -/
theorem c5_size_limit_policy_witness :
    (generate_qr exPriorState ['1'] [] true false).state.qr_image =
        exPriorState.qr_image ∧
      (generate_qr_from_url exPriorState bigPage false).state = exPriorState := by
  have h := c5_size_limit_policy exPriorState ['1'] [] true false exPriorState bigPage
    false bigPage bigPage (by rw [exRun_pdf]) (by rw [exRun_url])
  exact ⟨h.2.2.1, h.2.2.2.2⟩

/-- Witness for C8 at a concrete empty extraction run. -/
theorem c8_empty_extraction_witness :
    cleanJoin [[], []] = [] ∧
      (generate_qr exEmptyState ['1'] [] true true).state.qr_image =
        exEmptyState.qr_image ∧
      (generate_qr exEmptyState ['1'] [] true true).state.url_qr_image =
        exEmptyState.url_qr_image :=
  c8_empty_extraction [[], []] exEmptyState ['1'] [] true true (by decide)
    (by rw [exRun_empty])

/-- Witness for C10 at the two concrete aborting runs. -/
theorem c10_mutation_before_abort_witness :
    (generate_qr exEmptyState ['1'] [] true true).state =
        { exEmptyState with extracted_text := [] } ∧
      ∃ pages nums, exPriorState.pdf_pages = some pages ∧
        parse_page_input (pyStrip ['1']) exPriorState.total_pages = .ok nums ∧
        extract_text pages nums ≠ [] ∧
        (generate_qr exPriorState ['1'] [] true false).state =
          { exPriorState with
              extracted_text := extract_text pages nums,
              google_drive_link := pyStrip [] } ∧
        bigPage = composeContent (extract_text pages nums) (pyStrip []) :=
  c10_mutation_before_abort exEmptyState exPriorState ['1'] [] ['1'] [] true true true
    bigPage (by rw [exRun_empty]) (by rw [exRun_pdf])

/-- C6 counterexample: a valid URL whose host is not a recognised
domain, but whose path contains a recognised domain string, is accepted
with no advisory warning, refuting the host based reading under which
every valid input with an unrecognised host carries a warning. -/
theorem c6_counterexample :
    validate_google_drive_link "https://evil.example/drive.google.com".toList =
        (true, none) ∧
      hostOf "https://evil.example/drive.google.com".toList = "evil.example".toList ∧
      googleDomains.all
        (fun d => d ≠ hostOf "https://evil.example/drive.google.com".toList) = true := by
  refine ⟨by decide, by decide, by decide⟩
